import Mathlib

/-!
# Verification of the peerjsSelfDiscovery messaging overlay

A shallow embedding of the core state and operations of the
peerjsSelfDiscovery repository (a serverless, end-to-end encrypted peer
messaging overlay built on PeerJS), together with theorems settling the
frozen specification claims.

Conventions of the embedding:
* JavaScript objects used as string-keyed maps are modelled as association
  lists `List (String × α)` with JS semantics: lookup finds the (unique)
  binding, assignment replaces in place or appends, `delete` removes the
  binding.
* Timestamps (`Date.now()`) and durations are `Nat` milliseconds, passed
  explicitly.
* External Web Crypto primitives (`encryptMessage`, `signData`,
  `crypto.subtle.digest`, …) are parameters returning `Option _`;
  `none` models the catch-branch of the surrounding `try`/`catch`.
* Callbacks/`DataConnection` handles are opaque `Nat` identifiers.
-/

namespace PeerNS

/-- Association-list lookup: `obj[k]` on a JS object (first binding wins;
JS objects have unique keys). -/
def assocGet {α : Type} (l : List (String × α)) (k : String) : Option α :=
  match l.find? (fun kv => kv.1 == k) with
  | some kv => some kv.2
  | none => none

/-- Assignment `obj[k] = v` on a JS object: replace the binding in place if the key
exists, otherwise append it. -/
def assocSet {α : Type} : List (String × α) → String → α → List (String × α)
  | [], k, v => [(k, v)]
  | (k', v') :: t, k, v =>
    if k' = k then (k, v) :: t else (k', v') :: assocSet t k v

/-- Deletion `delete obj[k]` on a JS object: remove the binding for `k`. -/
def assocDelete {α : Type} (l : List (String × α)) (k : String) : List (String × α) :=
  l.filter (fun kv => kv.1 ≠ k)

-- ═══════════════════════════════════════════════════════════════════════════
-- Signaling gate (src/lib/peer-queue.ts)
-- ═══════════════════════════════════════════════════════════════════════════

/-- Constant `BASE_INTERVAL` (peer-queue.ts): base minimum delay between consecutive
`new Peer()` calls, in ms. -/
def BASE_INTERVAL : Nat := 1500

/-- Constant `THROTTLE_MULTIPLIER` (peer-queue.ts). -/
def THROTTLE_MULTIPLIER : Nat := 3

/-- Constant `MAX_INTERVAL` (peer-queue.ts): cap on the throttled interval, in ms. -/
def MAX_INTERVAL : Nat := 15000

/-- Constant `THROTTLE_DECAY` (peer-queue.ts): how long a throttle penalty lasts
before decaying, in ms. -/
def THROTTLE_DECAY : Nat := 60000

/-- A queued callback (`QueueEntry` in peer-queue.ts): the callback itself is
opaque, the priority is `true` for `'high'` and `false` for `'normal'`. -/
structure QueueEntry where
  fn : Nat
  himpri : Bool
  deriving DecidableEq, Repr

/-- The mutable fields of the `PeerQueue` singleton that the queue logic
reads and writes (timers are represented by the scheduling decisions the
step functions return, not stored). -/
structure PeerQueueState where
  queue : List QueueEntry
  lastCreate : Nat
  throttleCount : Nat
  lastThrottleTs : Nat
  networkDown : Bool
  totalCreated : Nat
  deriving DecidableEq, Repr

/-- The decay step at the top of the `currentInterval` getter
(peer-queue.ts): after `THROTTLE_DECAY` ms with no new throttle events the
count decays by one. -/
def decayedThrottleCount (c now lastThrottleTs : Nat) : Nat :=
  if 0 < c ∧ THROTTLE_DECAY < now - lastThrottleTs then c - 1 else c

/-- Getter `PeerQueue.currentInterval` (peer-queue.ts lines 177–189): the effective
inter-creation interval. With a zero (decayed) throttle count it is
`BASE_INTERVAL`; otherwise exponential backoff
`min (BASE_INTERVAL * THROTTLE_MULTIPLIER ^ min count 4) MAX_INTERVAL`. -/
def currentInterval (c now lastThrottleTs : Nat) : Nat :=
  let c' := decayedThrottleCount c now lastThrottleTs
  if c' = 0 then BASE_INTERVAL
  else min (BASE_INTERVAL * THROTTLE_MULTIPLIER ^ (min c' 4)) MAX_INTERVAL

/-- Insertion of a high-priority entry (`schedule` in peer-queue.ts):
after any existing high-priority entries but before normal ones. -/
def insertHigh (e : QueueEntry) : List QueueEntry → List QueueEntry
  | [] => [e]
  | x :: t => if x.himpri then x :: insertHigh e t else e :: x :: t

/-- Method `PeerQueue.schedule` (peer-queue.ts): enqueue a callback, high priority
jumping ahead of normal entries.  (The trailing `this.flush()` call is the
separate step `flushStep`.) -/
def schedule (st : PeerQueueState) (e : QueueEntry) : PeerQueueState :=
  if e.himpri then { st with queue := insertHigh e st.queue }
  else { st with queue := st.queue ++ [e] }

/-- Method `PeerQueue.reportSignalingError` (peer-queue.ts lines 107–126), after the
network probe resolved with `probeUp`.  If the network is up the failure
counts as a throttle event; if it is down the gate is marked network-down
and the queue is cleared. -/
def reportSignalingError (probeUp : Bool) (now : Nat) (st : PeerQueueState) :
    PeerQueueState :=
  if probeUp then
    { st with networkDown := false
              throttleCount := st.throttleCount + 1
              lastThrottleTs := now }
  else
    { st with networkDown := true, queue := [] }

/-- Method `PeerQueue.reportSignalingSuccess` (peer-queue.ts lines 132–142): clear
the network-down flag and decay the throttle counter.  (The trailing
`this.flush()` is the separate step `flushStep`.) -/
def reportSignalingSuccess (st : PeerQueueState) : PeerQueueState :=
  { st with networkDown := false
            throttleCount := st.throttleCount - 1 }

/-- One pass of `PeerQueue.flush` (peer-queue.ts lines 191–232) at wall-clock
`now`.  Returns the new state and the entry whose callback was executed, if
any: nothing runs when the queue is empty, when the gate is network-down, or
when the interval since `lastCreate` has not elapsed (the real code then arms
a timer to retry; the timer itself is not part of the state). -/
def flushStep (st : PeerQueueState) (now : Nat) :
    PeerQueueState × Option QueueEntry :=
  match st.queue with
  | [] => (st, none)
  | e :: rest =>
    if st.networkDown then (st, none)
    else
      let interval := currentInterval st.throttleCount now st.lastThrottleTs
      let c' := decayedThrottleCount st.throttleCount now st.lastThrottleTs
      if now - st.lastCreate < interval then
        ({ st with throttleCount := c' }, none)
      else
        ({ st with queue := rest
                   lastCreate := now
                   totalCreated := st.totalCreated + 1
                   throttleCount := c' }, some e)

-- ═══════════════════════════════════════════════════════════════════════════
-- Chat messages (src/lib/types.ts) and direct messaging
-- (src/lib/p2p-messaging.ts)
-- ═══════════════════════════════════════════════════════════════════════════

/-- Field `ChatMessage.status ∈ {waiting, sent, delivered, failed}`. -/
inductive MsgStatus where
  | waiting
  | sent
  | delivered
  | failed
  deriving DecidableEq, Repr

/-- Field `ChatMessage.dir ∈ {sent, recv}`. -/
inductive MsgDir where
  | sent
  | recv
  deriving DecidableEq, Repr

/-- Field `ChatMessage.type ∈ {text, file, calllog}`. -/
inductive MsgType where
  | text
  | file
  | calllog
  deriving DecidableEq, Repr

/-- Structure `ChatMessage` (types.ts): optional fields are `Option`s, absent booleans
are `false`. -/
structure ChatMessage where
  id : String
  dir : MsgDir
  content : Option String
  ts : Nat
  msgType : MsgType
  status : Option MsgStatus
  tid : Option String
  edited : Bool
  deleted : Bool
  deriving DecidableEq, Repr

/-- The wire object a direct `'message'` send produces on `conn.send`
(p2p-messaging.ts `sendEncryptedMessage`): either the encrypted form
`{iv, ct, sig, ts, id, e2e: true}` or the plaintext fallback
`{content, ts, id}`. -/
inductive DirectWire where
  | encrypted (iv ct sig : String) (ts : Nat) (id : String)
  | plaintext (content : String) (ts : Nat) (id : String)
  deriving DecidableEq, Repr

/-- Whether a direct wire payload is the plaintext fallback (no iv/ct/e2e
fields). -/
def DirectWire.isPlain : DirectWire → Bool
  | .plaintext _ _ _ => true
  | _ => false

/-- Function `sendEncryptedMessage` (p2p-messaging.ts lines 390–404).
`sharedKey` is the result of `getOrDeriveSharedKey` (`none` = no pairwise
key obtainable), `privateKey` our signing key; `encryptMessage` and
`signData` are the Web Crypto calls, `none` modelling a throw (the
`catch` falls through to the plaintext branch). -/
def sendEncryptedMessage (sharedKey privateKey : Option Nat)
    (encryptMessage : Nat → String → Option (String × String))
    (signData : Nat → String → Option String)
    (msg : ChatMessage) : DirectWire :=
  match sharedKey, privateKey with
  | some sk, some pk =>
    match encryptMessage sk (msg.content.getD "") with
    | some (iv, ct) =>
      match signData pk ct with
      | some sig => .encrypted iv ct sig msg.ts msg.id
      | none => .plaintext (msg.content.getD "") msg.ts msg.id
    | none => .plaintext (msg.content.getD "") msg.ts msg.id
  | _, _ => .plaintext (msg.content.getD "") msg.ts msg.id

/-- An incoming direct `'message'` wire object as read by
`handlePersistentData` (fields `id`, `ts`, `content`, `e2e`, `iv`, `ct`,
`sig`). -/
structure DirectMsgEvent where
  id : String
  ts : Nat
  content : Option String
  e2e : Bool
  iv : Option String
  ct : Option String
  sig : Option String
  deriving DecidableEq, Repr

/-- The content-resolution block of the `d.type === 'message'` branch of
`handlePersistentData` (p2p-messaging.ts lines 126–147).  `verify` models
`importPublicKey` + `verifySignature` on the contact's public key (`none` =
one of them threw), `decrypt` models `decryptMessage` (`none` = threw). -/
def resolveDirectContent (sharedKey : Option Nat) (contactPub : Option String)
    (verify : String → Option String → String → Option Bool)
    (decrypt : Nat → String → String → Option String)
    (d : DirectMsgEvent) : String :=
  if d.e2e ∧ d.ct.isSome ∧ d.iv.isSome then
    match sharedKey, contactPub with
    | some sk, some pub =>
      match verify pub d.sig (d.ct.getD "") with
      | some true =>
        match decrypt sk (d.iv.getD "") (d.ct.getD "") with
        | some c => c
        | none => "[encrypted — decryption failed]"
      | some false => "[unverified encrypted message]"
      | none => "[encrypted — decryption failed]"
    | _, _ => "[encrypted — no shared key]"
  else d.content.getD ""

/-- The effect of the `d.type === 'message'` branch of
`handlePersistentData` (p2p-messaging.ts lines 124–155) on the stored chat
history of the sending contact: a received `ChatMessage` is appended
unconditionally (`mgr.chats[ck].push(msg)` with `id: d.id ||
crypto.randomUUID()` — `freshId` models the random UUID used when `d.id` is
absent).  There is no lookup of `d.id` in the existing history. -/
def handleDirectMessage (sharedKey : Option Nat) (contactPub : Option String)
    (verify : String → Option String → String → Option Bool)
    (decrypt : Nat → String → String → Option String)
    (freshId : String) (chats : List ChatMessage) (d : DirectMsgEvent) :
    List ChatMessage :=
  chats ++ [{ id := if d.id = "" then freshId else d.id
              dir := .recv
              content := some (resolveDirectContent sharedKey contactPub verify decrypt d)
              ts := d.ts
              msgType := .text
              status := none
              tid := none
              edited := false
              deleted := false }]

/-- The per-message step of `resetUnackedMessages` (p2p-messaging.ts lines
377–388): every sent-direction message whose status is `'sent'` goes back to
`'waiting'` — the message's timestamp is not consulted. -/
def resetMsg (m : ChatMessage) : ChatMessage :=
  if m.dir = .sent ∧ m.status = some .sent then { m with status := some .waiting }
  else m

/-- Function `resetUnackedMessages` (p2p-messaging.ts lines 377–388): applied to every
message of every chat. -/
def resetUnackedMessages (chats : List (String × List ChatMessage)) :
    List (String × List ChatMessage) :=
  chats.map (fun kv => (kv.1, kv.2.map resetMsg))

-- ═══════════════════════════════════════════════════════════════════════════
-- Group subsystem (src unnamed group module, `group*` functions)
-- ═══════════════════════════════════════════════════════════════════════════

/-- Field `GroupMessage.type ∈ {text, system, file}`. -/
inductive GMsgType where
  | text
  | system
  | file
  deriving DecidableEq, Repr

/-- Structure `GroupMessage` (types.ts / group module): optional wire fields are
`Option`s; `e2e` absent is `false`. -/
structure GroupMessage where
  id : String
  groupId : String
  senderFP : String
  senderName : String
  content : String
  ts : Nat
  msgType : GMsgType
  status : Option MsgStatus
  e2e : Bool
  iv : Option String
  ct : Option String
  deriving DecidableEq, Repr

/-- The wire-message construction of `groupSendMessage` (group module lines
168–214): when a group key is present and the message is text, encrypt and
send `{...msg, content: '', iv, ct, e2e: true}`; on a missing key, a
non-text message, or an encryption throw (`none`), the original plaintext
message object goes out unchanged. -/
def groupWireOf (groupKey : Option Nat)
    (encryptMessage : Nat → String → Option (String × String))
    (msg : GroupMessage) : GroupMessage :=
  match groupKey with
  | some k =>
    if msg.msgType = .text then
      match encryptMessage k msg.content with
      | some (iv, ct) => { msg with content := "", iv := some iv, ct := some ct, e2e := true }
      | none => msg
    else msg
  | none => msg

/-- First successful decryption against the group-key history (the
`for (const hk of state.groupKeyHistory)` fallback loop in
`groupHandleMemberData`). -/
def tryHistoryDecrypt (decrypt : Nat → String → String → Option String)
    (iv ct : String) : List Nat → Option String
  | [] => none
  | k :: t =>
    match decrypt k iv ct with
    | some c => some c
    | none => tryHistoryDecrypt decrypt iv ct t

/-- The local copy stored by the `'group-relay'` branch of
`groupHandleMemberData`: decrypt with the current key, fall back through the
key history, and leave the content untouched if everything fails. -/
def groupLocalMsgOf (groupKey : Option Nat) (historyKeys : List Nat)
    (decrypt : Nat → String → String → Option String)
    (msg : GroupMessage) : GroupMessage :=
  if msg.e2e ∧ msg.iv.isSome ∧ msg.ct.isSome ∧ groupKey.isSome then
    match decrypt (groupKey.getD 0) (msg.iv.getD "") (msg.ct.getD "") with
    | some c => { msg with content := c }
    | none =>
      match tryHistoryDecrypt decrypt (msg.iv.getD "") (msg.ct.getD "") historyKeys with
      | some c => { msg with content := c }
      | none => msg
  else msg

/-- The `d.type === 'group-relay'` branch of `groupHandleMemberData` (group
module lines 687–719) acting on the stored group history.  Returns the new
message list and whether a `'group-message-ack'` was sent back: our own
messages and already-present ids are skipped (deduplicated by id);
otherwise the decrypted local copy is appended and an ack is sent when the
connection is open. -/
def groupHandleRelay (myFP : String) (groupKey : Option Nat)
    (historyKeys : List Nat) (decrypt : Nat → String → String → Option String)
    (connOpen : Bool) (msgs : List GroupMessage) (msg : GroupMessage) :
    List GroupMessage × Bool :=
  if msg.senderFP = myFP then (msgs, false)
  else if msgs.any (fun m => m.id == msg.id) then (msgs, false)
  else (msgs ++ [groupLocalMsgOf groupKey historyKeys decrypt msg], connOpen)

/-- Function `groupBackfill` (group module lines 937–945): the router's reply to a
member checkin carrying `since_ts`.  `none` means no `'group-backfill'`
message is sent at all. -/
def groupBackfill (messages : List GroupMessage) (connOpen : Bool)
    (sinceTs : Nat) : Option (List GroupMessage) :=
  let missed := messages.filter (fun m => sinceTs < m.ts)
  if 0 < missed.length ∧ connOpen then some missed else none

-- ═══════════════════════════════════════════════════════════════════════════
-- Identity router (src/lib/p2p.ts): contacts and migration
-- ═══════════════════════════════════════════════════════════════════════════

/-- Structure `Contact` (types.ts), restricted to the fields the migration logic
reads or writes.  A live `DataConnection` is an opaque handle. -/
structure Contact where
  friendlyName : String
  publicKey : Option String
  fingerprint : Option String
  currentPID : Option String
  knownPIDs : Option (List String)
  conn : Option Nat
  sharedKeyFingerprint : Option String
  pending : Option Bool
  deriving DecidableEq, Repr

/-- The `P2PManager` fields touched by `migrateContact`. -/
structure IRState where
  contacts : List (String × Contact)
  chats : List (String × List ChatMessage)
  sharedKeys : List (String × Nat)
  pidToFP : List (String × String)
  connectFailures : List (String × Nat)
  deriving DecidableEq, Repr

/-- JS `[...new Set(l)]`: deduplicate keeping the first occurrence of
each element, in order.  `seen` accumulates the elements already kept. -/
def dedupGo (seen : List String) : List String → List String
  | [] => []
  | x :: t => if x ∈ seen then dedupGo seen t else x :: dedupGo (x :: seen) t

/-- JS `[...new Set(l)]`. -/
def dedupKeepFirst (l : List String) : List String := dedupGo [] l

/-- The `knownPIDs` merge of `migrateContact` (p2p.ts):
`[...new Set([...target, ...source])]`. -/
def mergeKnownPIDs (target source : List String) : List String :=
  dedupKeepFirst (target ++ source)

/-- Stable insertion by timestamp, modelling where the ES stable
`Array.prototype.sort((a, b) => a.ts - b.ts)` places an element relative to
an already-sorted suffix. -/
def insertTs (x : ChatMessage) : List ChatMessage → List ChatMessage
  | [] => [x]
  | y :: t => if x.ts ≤ y.ts then x :: y :: t else y :: insertTs x t

/-- The ES stable sort `.sort((a, b) => a.ts - b.ts)` used on merged chat
histories, as a stable insertion sort. -/
def sortTs : List ChatMessage → List ChatMessage
  | [] => []
  | x :: t => insertTs x (sortTs t)

/-- The chat-history merge of `migrateContact` (p2p.ts): keep the target
history, append the source messages whose ids the target does not hold, and
sort the result by timestamp. -/
def mergeChats (target source : List ChatMessage) : List ChatMessage :=
  sortTs (target ++ source.filter (fun m => !(target.any (fun m' => m'.id == m.id))))

/-- The contact-record merge of `migrateContact` (p2p.ts lines 678–696) when
a record already exists under `newKey`: preserve fields from the old record
that the new one lacks, adopt the old record's current address, and union
the known addresses. -/
def mergeContactInto (existing target : Contact) : Contact :=
  let t1 := if existing.publicKey.isSome ∧ target.publicKey = none
            then { target with publicKey := existing.publicKey } else target
  let t2 := if existing.fingerprint.isSome ∧ t1.fingerprint = none
            then { t1 with fingerprint := existing.fingerprint } else t1
  let t3 := match existing.currentPID with
            | some p => { t2 with currentPID := some p }
            | none => t2
  match existing.knownPIDs with
  | some ks => { t3 with knownPIDs := some (mergeKnownPIDs (t3.knownPIDs.getD []) ks) }
  | none => t3

/-- The body of `migrateContact` (p2p.ts lines 673–734) once the old record
`existing` has been found under `oldKey`: merge the contact record, the
chat histories and the shared-key cache into `newKey`, refresh the
address-to-fingerprint map, and delete the `oldKey` record. -/
def migrateContactCore (oldKey newKey : String) (st : IRState)
    (existing : Contact) : IRState :=
  let contacts1 :=
    match assocGet st.contacts newKey with
    | none => assocSet st.contacts newKey { existing with conn := none }
    | some target => assocSet st.contacts newKey (mergeContactInto existing target)
  let chats1 :=
    match assocGet st.chats oldKey with
    | none => st.chats
    | some oldChats =>
      match assocGet st.chats newKey with
      | none => assocDelete (assocSet st.chats newKey oldChats) oldKey
      | some newChats =>
        assocDelete (assocSet st.chats newKey (mergeChats newChats oldChats)) oldKey
  let sharedKeys1 :=
    match assocGet st.sharedKeys oldKey with
    | some sk =>
      if (assocGet st.sharedKeys newKey).isNone
      then assocSet st.sharedKeys newKey sk else st.sharedKeys
    | none => st.sharedKeys
  let sharedKeys2 := assocDelete sharedKeys1 oldKey
  let pidcf :=
    match assocGet contacts1 newKey with
    | some nc =>
      match nc.fingerprint with
      | some fp =>
        let pids := nc.knownPIDs.getD [] ++
          (match nc.currentPID with | some p => [p] | none => [])
        (pids.foldl (fun m p => assocSet m p fp) st.pidToFP,
         pids.foldl (fun m p => assocDelete m p) st.connectFailures)
      | none => (st.pidToFP, st.connectFailures)
    | none => (st.pidToFP, st.connectFailures)
  { contacts := assocDelete contacts1 oldKey
    chats := chats1
    sharedKeys := sharedKeys2
    pidToFP := pidcf.1
    connectFailures := pidcf.2 }

/-- Method `P2PManager.migrateContact` (p2p.ts lines 673–734): no-op when the keys
coincide or no record exists under `oldKey`. -/
def migrateContact (oldKey newKey : String) (st : IRState) : IRState :=
  if oldKey = newKey then st
  else
    match assocGet st.contacts oldKey with
    | none => st
    | some existing => migrateContactCore oldKey newKey st existing

/-- Method `P2PManager.findContactByPublicKey` (p2p.ts, called from
`rvzHandleExchange` without an exclusion key): first contact key whose
stored public key equals the given one. -/
def findContactByPublicKey (contacts : List (String × Contact))
    (publicKey : String) : Option String :=
  match contacts.find? (fun kv => kv.2.publicKey == some publicKey) with
  | some kv => some kv.1
  | none => none

-- ═══════════════════════════════════════════════════════════════════════════
-- Rendezvous subsystem (src/lib/p2p-rvz.ts)
-- ═══════════════════════════════════════════════════════════════════════════

/-- An `rvz-exchange` wire message (p2p-rvz.ts): optional fields model JS
truthiness checks on them. -/
structure RvzExchange where
  persistentID : String
  friendlyName : String
  publicKey : Option String
  ts : Option String
  signature : Option String
  deriving DecidableEq, Repr

/-- The manager state touched by `rvzHandleExchange`: the contact map and
its indexes, the per-contact rendezvous namespaces (`rvzMap`, values
opaque), and the module-global `rvzRepliedConns` set of connection ids that
already got a reply. -/
structure RvzEnv where
  contacts : List (String × Contact)
  pidToFP : List (String × String)
  connectFailures : List (String × Nat)
  rvzMap : List (String × Nat)
  replied : List Nat
  deriving DecidableEq, Repr

/-- Outcome of one `rvzHandleExchange` call: the new state, whether an
`rvz-exchange` reply was sent on the connection, and whether the connection
was closed because signature verification failed. -/
structure RvzResult where
  env : RvzEnv
  sentReply : Bool
  closedConn : Bool
  deriving DecidableEq, Repr

/-- The contact-address update of `rvzHandleExchange` (p2p-rvz.ts lines
219–231): when the sender matches a saved contact by public key and
announces a new transport address, adopt it as `currentPID`, extend
`knownPIDs`, and index the address. -/
def rvzUpdateContact (env : RvzEnv) (contactKey : Option String)
    (newPID : String) : RvzEnv :=
  match contactKey with
  | some k =>
    match assocGet env.contacts k with
    | some c =>
      if c.currentPID ≠ some newPID then
        let c1 := { c with currentPID := some newPID }
        let c2 := if (c1.knownPIDs.getD []).contains newPID then c1
                  else { c1 with knownPIDs := some (c1.knownPIDs.getD [] ++ [newPID]) }
        { env with contacts := assocSet env.contacts k c2
                   pidToFP := assocSet env.pidToFP newPID k }
      else env
    | none => env
  | none => env

/-- The tail of `rvzHandleExchange` (p2p-rvz.ts lines 249–257): tear down
the contact's rendezvous namespace (`rvzDeactivate`) and, when a contact
record exists for the exchanged key, clear its failure counter (the
follow-up `connectPersistent` call is transport I/O, not state). -/
def rvzFinish (env : RvzEnv) (contactKey : Option String) (newPID : String) :
    RvzEnv :=
  let env1 :=
    match contactKey with
    | some k => { env with rvzMap := assocDelete env.rvzMap k }
    | none => env
  let ck := contactKey.getD newPID
  if (assocGet env1.contacts ck).isSome then
    { env1 with connectFailures := assocDelete env1.connectFailures newPID }
  else env1

/-- The signature-verified body of `rvzHandleExchange` (p2p-rvz.ts lines
213–257): update the contact, then reply on the connection only once —
`conn.open && !rvzRepliedConns.has(conn)` — recording the connection in the
replied set before sending. -/
def rvzHandleExchangeBody (connId : Nat) (connOpen : Bool) (env : RvzEnv)
    (d : RvzExchange) : RvzResult :=
  let contactKey :=
    match d.publicKey with
    | some pk => findContactByPublicKey env.contacts pk
    | none => none
  let env1 := rvzUpdateContact env contactKey d.persistentID
  let rs := if connOpen ∧ ¬ connId ∈ env1.replied
            then (connId :: env1.replied, true) else (env1.replied, false)
  let env2 := rvzFinish { env1 with replied := rs.1 } contactKey d.persistentID
  ⟨env2, rs.2, false⟩

/-- Function `rvzHandleExchange` (p2p-rvz.ts lines 195–258).  `verify` models
`importPublicKey` + `verifySignature` (`none` = a throw): when the message
carries a key, a signature and a timestamp in a secure context, a failed or
erroring verification closes the connection without replying. -/
def rvzHandleExchange (verify : RvzExchange → Option Bool) (subtle : Bool)
    (connId : Nat) (connOpen : Bool) (env : RvzEnv) (d : RvzExchange) :
    RvzResult :=
  if d.publicKey.isSome ∧ d.signature.isSome ∧ d.ts.isSome ∧ subtle then
    match verify d with
    | some true => rvzHandleExchangeBody connId connOpen env d
    | _ => ⟨env, false, true⟩
  else rvzHandleExchangeBody connId connOpen env d

/-- Total number of `rvz-exchange` replies sent on connection `connId` over
a sequence of received exchanges (each event: the message and whether the
connection was open at that moment). -/
def rvzRunReplies (verify : RvzExchange → Option Bool) (subtle : Bool)
    (connId : Nat) : List (RvzExchange × Bool) → RvzEnv → Nat
  | [], _ => 0
  | (d, opn) :: rest, env =>
    let r := rvzHandleExchange verify subtle connId opn env d
    (if r.sentReply then 1 else 0) + rvzRunReplies verify subtle connId rest r.env

-- ═══════════════════════════════════════════════════════════════════════════
-- Namespace engine registry merge (src/lib/p2p-ns.ts)
-- ═══════════════════════════════════════════════════════════════════════════

/-- A namespace registry entry (`PeerInfo` in types.ts), with the fields
`nsMergeRegistry` reads or writes; the router-owned transport handle is
omitted (the rebuilt entries never carry one). -/
structure PeerInfo where
  discoveryID : String
  friendlyName : String
  lastSeen : Nat
  knownPID : Option String
  publicKey : Option String
  isMe : Bool
  deriving DecidableEq, Repr

/-- An element of the `peers` array of a `'registry'` broadcast
(p2p-ns.ts `nsBroadcastRegistry`). -/
structure BroadcastPeer where
  discoveryID : String
  friendlyname : String
  publicKey : Option String
  deriving DecidableEq, Repr

/-- Remove the first element satisfying the predicate (JS
`Object.keys(m).find(...)` followed by `delete`). -/
def removeFirst {α : Type} (p : α → Bool) : List α → List α
  | [] => []
  | x :: t => if p x then t else x :: removeFirst p t

/-- The fresh registry entry `nsMergeRegistry` builds for a broadcast peer
(`knownPID` is the contact match computed from the local contact map). -/
def mkRegistryEntry (now : Nat) (knownPID : Option String)
    (p : BroadcastPeer) : PeerInfo :=
  { discoveryID := p.discoveryID
    friendlyName := p.friendlyname
    lastSeen := now
    knownPID := knownPID
    publicKey := p.publicKey
    isMe := false }

/-- The per-peer step of `nsMergeRegistry` (p2p-ns.ts lines 300–338): skip
our own discovery id, evict an older non-self entry carrying the same
public key, and store the rebuilt entry under the peer's discovery id.
`knownPIDFor` abstracts the lookup of the broadcast peer in the local
contact map (by public key or discovery uuid); the contact-presence side
effects touch the contact map, not the registry. -/
def nsMergeStep (now : Nat) (knownPIDFor : BroadcastPeer → Option String)
    (myDiscID : String) (acc : List (String × PeerInfo))
    (p : BroadcastPeer) : List (String × PeerInfo) :=
  if p.discoveryID = myDiscID then acc
  else
    let acc1 :=
      match p.publicKey with
      | some pk => removeFirst
          (fun kv => kv.1 != p.discoveryID && !kv.2.isMe && kv.2.publicKey == some pk)
          acc
      | none => acc
    assocSet acc1 p.discoveryID (mkRegistryEntry now (knownPIDFor p) p)

/-- The registry replacement performed by `nsMergeRegistry` (p2p-ns.ts lines
284–357): start a fresh registry holding only our own self-entry (the entry
marked `isMe`, if any), then fold the broadcast peers into it. -/
def nsMergeRegistry (now : Nat) (knownPIDFor : BroadcastPeer → Option String)
    (myDiscID : String) (registry : List (String × PeerInfo))
    (peers : List BroadcastPeer) : List (String × PeerInfo) :=
  let init :=
    match (registry.map Prod.snd).find? (fun r => r.isMe) with
    | some me => [(me.discoveryID, me)]
    | none => []
  peers.foldl (nsMergeStep now knownPIDFor myDiscID) init

-- ═══════════════════════════════════════════════════════════════════════════
-- Identity fingerprint (src/lib/p2p.ts `computeFingerprint`)
-- ═══════════════════════════════════════════════════════════════════════════

/-- The sixteen lowercase hex digit characters. -/
def hexChars : List Char := "0123456789abcdef".data

/-- JS `b.toString(16).padStart(2, '0')` for a byte `b`: lowercase hex digits
(`Nat.toDigits 16`) left-padded with `'0'` to two characters. -/
def byteToHex (b : Nat) : List Char :=
  let ds := Nat.toDigits 16 b
  List.replicate (2 - ds.length) '0' ++ ds

/-- Method `P2PManager.computeFingerprint` (p2p.ts lines 414–423).  `subtle` is the
availability of `window.crypto.subtle`; `digest` models
`crypto.subtle.digest('SHA-256', ·)` over the UTF-8 bytes `utf8Encode pk`
(`none` = threw).  The first 8 digest bytes are rendered as two lowercase
hex characters each; any failure yields the empty string. -/
def computeFingerprint (subtle : Bool)
    (digest : List Nat → Option (List Nat))
    (utf8Encode : String → List Nat) (pk : String) : String :=
  if subtle then
    match digest (utf8Encode pk) with
    | some h => String.mk (((h.take 8).map byteToHex).flatten)
    | none => ""
  else ""

-- ═══════════════════════════════════════════════════════════════════════════
-- Concrete sample data used by witnesses and counterexamples
-- ═══════════════════════════════════════════════════════════════════════════

/-- A sample outgoing chat message. -/
def cmsgA : ChatMessage :=
  { id := "m1", dir := .sent, content := some "hi", ts := 5, msgType := .text
    status := some .waiting, tid := none, edited := false, deleted := false }

/-- A sample incoming direct `'message'` wire object. -/
def dmsgA : DirectMsgEvent :=
  { id := "m1", ts := 7, content := some "hi", e2e := false
    iv := none, ct := none, sig := none }

/-- A sample group message with timestamp 10. -/
def gmsgA : GroupMessage :=
  { id := "g1", groupId := "G", senderFP := "fpA", senderName := "A"
    content := "x", ts := 10, msgType := .text, status := none
    e2e := false, iv := none, ct := none }

/-- A sample group message with timestamp 3. -/
def gmsgB : GroupMessage := { gmsgA with id := "g2", ts := 3 }

/-- A signaling-gate state with one pending normal-priority entry and the
network up. -/
def pqStateA : PeerQueueState :=
  { queue := [⟨0, false⟩], lastCreate := 0, throttleCount := 0
    lastThrottleTs := 0, networkDown := false, totalCreated := 0 }

/-- A signaling-gate state already marked network-down with one pending
entry. -/
def pqDownState : PeerQueueState :=
  { queue := [⟨1, false⟩], lastCreate := 0, throttleCount := 0
    lastThrottleTs := 0, networkDown := true, totalCreated := 0 }

/-- A sample self registry entry. -/
def meA : PeerInfo :=
  { discoveryID := "my", friendlyName := "me", lastSeen := 1
    knownPID := none, publicKey := some "PKme", isMe := true }

/-- A sample stale non-self registry entry. -/
def oldA : PeerInfo :=
  { discoveryID := "old", friendlyName := "bob", lastSeen := 1
    knownPID := none, publicKey := some "PKold", isMe := false }

/-- A sample local registry before a broadcast. -/
def regA : List (String × PeerInfo) := [("my", meA), ("old", oldA)]

/-- A sample broadcast peer. -/
def bpA : BroadcastPeer :=
  { discoveryID := "d1", friendlyname := "p1", publicKey := some "PK1" }

-- ═══════════════════════════════════════════════════════════════════════════
-- Theorems
-- ═══════════════════════════════════════════════════════════════════════════

/-- C5: for the signaling gate's adaptive policy, with no intervening decay
(at most `THROTTLE_DECAY` ms since the last throttle event): at throttle
count 0 the inter-creation interval is the base 1500 ms; for every count
`c ≥ 1` it is `min 15000 (1500 * 3 ^ min c 4)` ms; and for every `c ≥ 3` it
is capped at 15000 ms. -/
theorem c5_adaptive_interval (c now lastTs : Nat)
    (hdecay : now - lastTs ≤ THROTTLE_DECAY) :
    (c = 0 → currentInterval c now lastTs = 1500) ∧
    (1 ≤ c → currentInterval c now lastTs = min 15000 (1500 * 3 ^ (min c 4))) ∧
    (3 ≤ c → currentInterval c now lastTs = 15000) := by
  have hdc : decayedThrottleCount c now lastTs = c := by
    unfold decayedThrottleCount THROTTLE_DECAY at *
    have : ¬ (0 < c ∧ 60000 < now - lastTs) := by omega
    simp [this]
  refine ⟨?_, ?_, ?_⟩
  · intro h0
    subst h0
    simp [currentInterval, hdc, BASE_INTERVAL]
  · intro h1
    have hne : c ≠ 0 := by omega
    simp [currentInterval, hdc, hne, BASE_INTERVAL, THROTTLE_MULTIPLIER,
      MAX_INTERVAL, Nat.min_comm]
  · intro h3
    have hne : c ≠ 0 := by omega
    have hmin : min c 4 = 3 ∨ min c 4 = 4 := by omega
    rcases hmin with h | h <;>
      simp [currentInterval, hdc, hne, BASE_INTERVAL, THROTTLE_MULTIPLIER,
        MAX_INTERVAL, h]

/-- Witness for C5 at throttle count 3 with a fresh throttle event: the
interval is the 15 s cap. -/
theorem c5_adaptive_interval_witness : currentInterval 3 0 0 = 15000 :=
  (c5_adaptive_interval 3 0 0 (by decide)).2.2 (by decide)

/-- C4 (code bug): the periodic unacked-message reset takes **every**
sent-direction message whose status is `'sent'` back to `'waiting'`,
regardless of how long it has been awaiting its acknowledgment — here a
message sent at t = 599000 ms is reset at the t = 600000 ms checkin tick,
only 1000 ms (far less than 2 minutes) after it was sent, although the
code's own comment says only messages "sent >2min ago without ACK" are
reset. -/
theorem c4_reset_ignores_age :
    600000 - 599000 < 120000 ∧
    resetUnackedMessages [("contact",
      [{ id := "m1", dir := .sent, content := some "hi", ts := 599000
         msgType := .text, status := some .sent, tid := none
         edited := false, deleted := false }])] =
    [("contact",
      [{ id := "m1", dir := .sent, content := some "hi", ts := 599000
         msgType := .text, status := some .waiting, tid := none
         edited := false, deleted := false }])] := by
  exact ⟨by decide, by decide⟩

/-- C8: on a member checkin over an open connection, the router's backfill
reply contains exactly the stored group messages with `ts > since_ts`: it is
`none` (no `'group-backfill'` sent at all) precisely when no stored message
is newer than `since_ts`, and any sent reply holds a message iff it is a
stored message with `ts > since_ts`. -/
theorem c8_backfill_exact (messages : List GroupMessage) (sinceTs : Nat)
    (connOpen : Bool) (hopen : connOpen = true) :
    (groupBackfill messages connOpen sinceTs =
      if messages.filter (fun m => sinceTs < m.ts) = [] then none
      else some (messages.filter (fun m => sinceTs < m.ts))) ∧
    (groupBackfill messages connOpen sinceTs = none ↔
      ∀ m ∈ messages, m.ts ≤ sinceTs) ∧
    (∀ out, groupBackfill messages connOpen sinceTs = some out →
      ∀ m, m ∈ out ↔ (m ∈ messages ∧ sinceTs < m.ts)) := by
  subst hopen
  have hout : groupBackfill messages true sinceTs =
      if messages.filter (fun m => sinceTs < m.ts) = [] then none
      else some (messages.filter (fun m => sinceTs < m.ts)) := by
    unfold groupBackfill
    rcases h : messages.filter (fun m => decide (sinceTs < m.ts)) with _ | ⟨x, t⟩ <;>
      simp [h]
  refine ⟨hout, ?_, ?_⟩
  · rw [hout]
    rcases h : messages.filter (fun m => decide (sinceTs < m.ts)) with _ | ⟨x, t⟩
    · simp only [h, if_pos rfl]
      rw [List.filter_eq_nil_iff] at h
      simpa using h
    · simp only [h]
      rw [if_neg (by simp)]
      constructor
      · intro hc; cases hc
      · intro hall
        have hx : x ∈ messages.filter (fun m => decide (sinceTs < m.ts)) := by
          rw [h]; exact List.mem_cons_self x t
        rw [List.mem_filter] at hx
        have := hall x hx.1
        simp at hx
        omega
  · intro out hsome m
    rw [hout] at hsome
    rcases h : messages.filter (fun m => decide (sinceTs < m.ts)) with _ | ⟨x, t⟩
    · rw [h] at hsome; simp at hsome
    · rw [h] at hsome
      rw [if_neg (by simp)] at hsome
      have : out = x :: t := by injection hsome with e; exact e.symm
      subst this
      rw [← h, List.mem_filter]
      simp

/-- Witness for C8: two stored messages with timestamps 10 and 3 and
`since_ts = 5` produce a backfill holding exactly the newer one. -/
theorem c8_backfill_exact_witness :
    groupBackfill [gmsgA, gmsgB] true 5 = some [gmsgA] := by
  have h := (c8_backfill_exact [gmsgA, gmsgB] 5 true rfl).1
  rw [h]
  rfl

/-- C1 counterexample: with a pairwise shared key **and** our signing key
both available, the wire payload can still be the plaintext fallback — the
`catch` around `encryptMessage`/`signData` in `sendEncryptedMessage` falls
through to `conn.send({type: 'message', content, ts, id})` when the
encryption throws.  This refutes "whenever a shared key and our signing key
are available, the message goes out encrypted, never in plaintext". -/
theorem c1_counterexample :
    (sendEncryptedMessage (some 1) (some 1) (fun _ _ => none)
      (fun _ _ => none) cmsgA).isPlain = true ∧
    ¬ (∀ (enc : Nat → String → Option (String × String))
         (sign : Nat → String → Option String) (sk pk : Nat) (m : ChatMessage),
         (sendEncryptedMessage (some sk) (some pk) enc sign m).isPlain = false) := by
  refine ⟨rfl, fun hall => ?_⟩
  have h := hall (fun _ _ => none) (fun _ _ => none) 1 1 cmsgA
  rw [show (sendEncryptedMessage (some 1) (some 1) (fun _ _ => none)
    (fun _ _ => none) cmsgA).isPlain = true from rfl] at h
  cases h

/-- C1 amended: a direct text message goes out as the plaintext fallback iff
no pairwise shared key could be obtained, or our signing key is missing, or
the encryption/signing operation itself throws; a group text message goes
out unencrypted iff the group key is absent, the message is not text, or
group-key encryption throws. -/
theorem c1_plaintext_fallback_amended (sharedKey privateKey : Option Nat)
    (enc : Nat → String → Option (String × String))
    (sign : Nat → String → Option String) (m : ChatMessage)
    (gk : Option Nat) (gm : GroupMessage) (hct : gm.ct = none) :
    ((sendEncryptedMessage sharedKey privateKey enc sign m).isPlain = true ↔
      sharedKey = none ∨ privateKey = none ∨
      (∃ sk pk, sharedKey = some sk ∧ privateKey = some pk ∧
        (enc sk (m.content.getD "") = none ∨
         ∃ iv ct, enc sk (m.content.getD "") = some (iv, ct) ∧
           sign pk ct = none))) ∧
    ((groupWireOf gk enc gm).ct = none ↔
      gk = none ∨ gm.msgType ≠ .text ∨
      (∃ k, gk = some k ∧ enc k gm.content = none)) := by
  constructor
  · rcases sharedKey with _ | sk <;> rcases privateKey with _ | pk <;>
      simp [sendEncryptedMessage, DirectWire.isPlain]
    rcases he : enc sk (m.content.getD "") with _ | ⟨iv, ct⟩
    · simp [DirectWire.isPlain]
    · rcases hs : sign pk ct with _ | sig <;>
        simp [DirectWire.isPlain, hs]
      exact ⟨iv, ct, ⟨rfl, rfl⟩, hs⟩
  · rcases gk with _ | k
    · simp [groupWireOf, hct]
    · by_cases htype : gm.msgType = .text
      · rcases he : enc k gm.content with _ | ⟨iv, ct⟩ <;>
          simp [groupWireOf, htype, he, hct]
      · simp [groupWireOf, htype, hct]

/-- Witness for C1 (amended): a group message built without ciphertext and
no group key available goes out unencrypted. -/
theorem c1_plaintext_fallback_amended_witness :
    (groupWireOf none (fun _ _ => none) gmsgA).ct = none :=
  (c1_plaintext_fallback_amended none none (fun _ _ => none)
    (fun _ _ => none) cmsgA none gmsgA rfl).2.mpr (Or.inl rfl)

/-- The local copy stored by the group relay handler keeps the wire
message's id. -/
theorem groupLocalMsgOf_id (groupKey : Option Nat) (historyKeys : List Nat)
    (decrypt : Nat → String → String → Option String) (msg : GroupMessage) :
    (groupLocalMsgOf groupKey historyKeys decrypt msg).id = msg.id := by
  unfold groupLocalMsgOf
  split
  · rcases decrypt (groupKey.getD 0) (msg.iv.getD "") (msg.ct.getD "") with _ | c
    · rcases tryHistoryDecrypt decrypt (msg.iv.getD "") (msg.ct.getD "")
        historyKeys with _ | c <;> rfl
    · rfl
  · rfl

/-- C2 counterexample: the direct `'message'` branch of
`handlePersistentData` appends the received message to the stored chat
history without any lookup of its id, so the second delivery of the very
same wire message adds a second entry — the handler is **not** deduplicated
by message id.  This refutes "every message handler deduplicates by message
id … adds at most one entry to the stored chat history". -/
theorem c2_counterexample :
    (handleDirectMessage none none (fun _ _ _ => none) (fun _ _ _ => none) "f"
      (handleDirectMessage none none (fun _ _ _ => none) (fun _ _ _ => none)
        "f" [] dmsgA) dmsgA).length = 2 ∧
    ¬ (∀ (sharedKey : Option Nat) (contactPub : Option String)
         (verify : String → Option String → String → Option Bool)
         (decrypt : Nat → String → String → Option String)
         (freshId : String) (chats : List ChatMessage) (d : DirectMsgEvent),
         (handleDirectMessage sharedKey contactPub verify decrypt freshId
           (handleDirectMessage sharedKey contactPub verify decrypt freshId
             chats d) d).length ≤ chats.length + 1) := by
  refine ⟨rfl, fun hall => ?_⟩
  have h := hall none none (fun _ _ _ => none) (fun _ _ _ => none) "f" [] dmsgA
  rw [show (handleDirectMessage none none (fun _ _ _ => none)
    (fun _ _ _ => none) "f"
    (handleDirectMessage none none (fun _ _ _ => none) (fun _ _ _ => none)
      "f" [] dmsgA) dmsgA).length = 2 from rfl] at h
  simp at h

/-- C2 amended: the `'group-relay'` branch of `groupHandleMemberData` is
deduplicated by message id — a second delivery of the same relay leaves the
stored group history unchanged and sends no ack — while the direct
`'message'` branch of `handlePersistentData` appends unconditionally, so a
duplicated direct delivery grows the chat history by two entries. -/
theorem c2_dedup_amended :
    (∀ (myFP : String) (groupKey : Option Nat) (historyKeys : List Nat)
       (decrypt : Nat → String → String → Option String)
       (connOpen : Bool) (msgs : List GroupMessage) (msg : GroupMessage),
       groupHandleRelay myFP groupKey historyKeys decrypt connOpen
         (groupHandleRelay myFP groupKey historyKeys decrypt connOpen
           msgs msg).1 msg =
       ((groupHandleRelay myFP groupKey historyKeys decrypt connOpen
           msgs msg).1, false)) ∧
    (∀ (sharedKey : Option Nat) (contactPub : Option String)
       (verify : String → Option String → String → Option Bool)
       (decrypt : Nat → String → String → Option String)
       (freshId : String) (chats : List ChatMessage) (d : DirectMsgEvent),
       (handleDirectMessage sharedKey contactPub verify decrypt freshId
         (handleDirectMessage sharedKey contactPub verify decrypt freshId
           chats d) d).length = chats.length + 2) := by
  constructor
  · intro myFP groupKey historyKeys decrypt connOpen msgs msg
    by_cases hme : msg.senderFP = myFP
    · simp [groupHandleRelay, hme]
    · by_cases hdup : msgs.any (fun m => m.id == msg.id)
      · simp [groupHandleRelay, hme, hdup]
      · have hfst : (groupHandleRelay myFP groupKey historyKeys decrypt
            connOpen msgs msg).1 =
            msgs ++ [groupLocalMsgOf groupKey historyKeys decrypt msg] := by
          simp [groupHandleRelay, hme, hdup]
        rw [hfst]
        have hany : (msgs ++ [groupLocalMsgOf groupKey historyKeys decrypt
            msg]).any (fun m => m.id == msg.id) = true := by
          rw [List.any_append]
          simp [groupLocalMsgOf_id]
        simp [groupHandleRelay, hme, hany]
  · intro sharedKey contactPub verify decrypt freshId chats d
    simp [handleDirectMessage]

/-- C3 counterexample: when a signaling failure is reported and the network
probe fails, the pending entries do **not** remain in the queue —
`reportSignalingError` clears the queue (`this.queue = []`, "they'll be
re-queued when online"), so the entry that was pending at the moment of the
failure is gone and nothing is executed after `reportSignalingSuccess`
resumes processing.  This refutes "the entries that were pending at the
moment the failure was reported remain in the queue and are executed after
report_success". -/
theorem c3_counterexample :
    pqStateA.queue ≠ [] ∧
    (reportSignalingError false 5 pqStateA).networkDown = true ∧
    (reportSignalingError false 5 pqStateA).queue = [] ∧
    (flushStep (reportSignalingSuccess (reportSignalingError false 5 pqStateA))
      1000000000).2 = none := by
  refine ⟨by decide, by decide, by decide, by decide⟩

/-- C3 amended: when a signaling failure is reported and the probe fails,
the gate is marked network-down and its pending entries are cleared (callers
re-queue them when the network returns); while network-down `flush` executes
no queued callback; `report_success` clears the flag, after which a due
queued entry is executed again. -/
theorem c3_network_down_amended (st : PeerQueueState) (now t : Nat) :
    (reportSignalingError false now st).networkDown = true ∧
    (reportSignalingError false now st).queue = [] ∧
    (st.networkDown = true → flushStep st t = (st, none)) ∧
    (reportSignalingSuccess st).networkDown = false ∧
    (∀ e rest, st.networkDown = false → st.queue = e :: rest →
      currentInterval st.throttleCount t st.lastThrottleTs ≤ t - st.lastCreate →
      (flushStep st t).2 = some e) := by
  refine ⟨by simp [reportSignalingError], by simp [reportSignalingError],
    ?_, by simp [reportSignalingSuccess], ?_⟩
  · intro hdown
    unfold flushStep
    rcases hq : st.queue with _ | ⟨e, rest⟩
    · rfl
    · simp [hdown]
  · intro e rest hup hq hdue
    unfold flushStep
    rw [hq]
    simp only [hup]
    rw [if_neg (by simp), if_neg (by omega)]

/-- Witness for C3 (amended): on a concrete network-down state, a flush pass
executes nothing and leaves the state untouched. -/
theorem c3_network_down_amended_witness :
    flushStep pqDownState 7 = (pqDownState, none) :=
  (c3_network_down_amended pqDownState 0 7).2.2.1 rfl

/-- The bookkeeping tail of the exchange handler does not touch the replied
set. -/
theorem rvzFinish_replied (env : RvzEnv) (contactKey : Option String)
    (newPID : String) :
    (rvzFinish env contactKey newPID).replied = env.replied := by
  unfold rvzFinish
  rcases contactKey with _ | k <;> dsimp <;> split <;> rfl

/-- The contact-address update of the exchange handler does not touch the
replied set. -/
theorem rvzUpdateContact_replied (env : RvzEnv) (contactKey : Option String)
    (newPID : String) :
    (rvzUpdateContact env contactKey newPID).replied = env.replied := by
  unfold rvzUpdateContact
  rcases contactKey with _ | k
  · rfl
  · dsimp
    split
    · split <;> rfl
    · rfl

/-- The exchange-handler body's reply decision and its effect on the replied
set: a reply is sent exactly when the connection is open and not yet in the
set, and the set then gains the connection. -/
theorem rvzHandleExchangeBody_eqs (connId : Nat) (connOpen : Bool)
    (henv : RvzEnv) (d : RvzExchange) :
    ((connOpen = true ∧ connId ∉ henv.replied) →
      (rvzHandleExchangeBody connId connOpen henv d).sentReply = true ∧
      (rvzHandleExchangeBody connId connOpen henv d).env.replied =
        connId :: henv.replied) ∧
    (¬ (connOpen = true ∧ connId ∉ henv.replied) →
      (rvzHandleExchangeBody connId connOpen henv d).sentReply = false ∧
      (rvzHandleExchangeBody connId connOpen henv d).env.replied =
        henv.replied) := by
  unfold rvzHandleExchangeBody
  dsimp only
  simp only [rvzFinish_replied, rvzUpdateContact_replied]
  by_cases hcond : connOpen = true ∧ connId ∉ henv.replied
  · rw [if_pos hcond]
    exact ⟨fun _ => ⟨rfl, rfl⟩, fun hn => absurd hcond hn⟩
  · rw [if_neg hcond]
    exact ⟨fun h => absurd h hcond, fun _ => ⟨rfl, rfl⟩⟩

/-- One exchange-handler call: a connection already in the replied set never
gets another reply and stays in the set; and whenever a reply is sent the
connection is recorded in the set. -/
theorem rvzHandleExchange_spec (verify : RvzExchange → Option Bool)
    (subtle : Bool) (connId : Nat) (connOpen : Bool) (env : RvzEnv)
    (d : RvzExchange) :
    (connId ∈ env.replied →
      (rvzHandleExchange verify subtle connId connOpen env d).sentReply = false ∧
      connId ∈ (rvzHandleExchange verify subtle connId connOpen env d).env.replied) ∧
    ((rvzHandleExchange verify subtle connId connOpen env d).sentReply = true →
      connId ∈ (rvzHandleExchange verify subtle connId connOpen env d).env.replied) := by
  have hbody := rvzHandleExchangeBody_eqs connId connOpen env d
  have hmain : (connId ∈ env.replied →
      (rvzHandleExchangeBody connId connOpen env d).sentReply = false ∧
      connId ∈ (rvzHandleExchangeBody connId connOpen env d).env.replied) ∧
      ((rvzHandleExchangeBody connId connOpen env d).sentReply = true →
        connId ∈ (rvzHandleExchangeBody connId connOpen env d).env.replied) := by
    constructor
    · intro hmem
      have hn : ¬ (connOpen = true ∧ connId ∉ env.replied) := by
        intro ⟨_, hnm⟩; exact hnm hmem
      obtain ⟨hs, hr⟩ := hbody.2 hn
      exact ⟨hs, by rw [hr]; exact hmem⟩
    · intro hsent
      by_cases hcond : connOpen = true ∧ connId ∉ env.replied
      · obtain ⟨_, hr⟩ := hbody.1 hcond
        rw [hr]
        exact List.mem_cons_self _ _
      · obtain ⟨hs, _⟩ := hbody.2 hcond
        rw [hs] at hsent
        cases hsent
  unfold rvzHandleExchange
  split
  · rcases hv : verify d with _ | b
    · exact ⟨fun hmem => ⟨rfl, hmem⟩, fun h => by cases h⟩
    · rcases b with _ | _
      · exact ⟨fun hmem => ⟨rfl, hmem⟩, fun h => by cases h⟩
      · exact hmain
  · exact hmain

/-- C9: a given data channel answers at most one rendezvous exchange — over
any sequence of `rvz-exchange` messages received on the same connection, the
responder (which records the connection in `rvzRepliedConns` before
answering and checks the set first) sends at most one reply, and none at all
if the connection is already in the replied set. -/
theorem c9_at_most_one_reply (verify : RvzExchange → Option Bool)
    (subtle : Bool) (connId : Nat) (events : List (RvzExchange × Bool))
    (env : RvzEnv) :
    rvzRunReplies verify subtle connId events env ≤
      (if connId ∈ env.replied then 0 else 1) := by
  induction events generalizing env with
  | nil =>
    unfold rvzRunReplies
    exact Nat.zero_le _
  | cons ev rest ih =>
    obtain ⟨d, opn⟩ := ev
    have hspec := rvzHandleExchange_spec verify subtle connId opn env d
    unfold rvzRunReplies
    dsimp only
    by_cases hmem : connId ∈ env.replied
    · obtain ⟨hsent, hmem2⟩ := hspec.1 hmem
      rw [if_pos hmem, hsent]
      have hrest := ih (rvzHandleExchange verify subtle connId opn env d).env
      rw [if_pos hmem2] at hrest
      simpa using hrest
    · rw [if_neg hmem]
      rcases hsent : (rvzHandleExchange verify subtle connId opn env d).sentReply
      · have hrest := ih (rvzHandleExchange verify subtle connId opn env d).env
        have hle1 : rvzRunReplies verify subtle connId rest
            (rvzHandleExchange verify subtle connId opn env d).env ≤ 1 := by
          refine le_trans hrest ?_
          split <;> omega
        simpa using hle1
      · have hmem2 := hspec.2 hsent
        have hrest := ih (rvzHandleExchange verify subtle connId opn env d).env
        rw [if_pos hmem2] at hrest
        simp only [if_true, eq_self_iff_true]
        omega

set_option maxRecDepth 8192 in
/-- Every byte below 256 renders as exactly two lowercase hex characters. -/
theorem byteToHex_spec :
    ∀ b < 256, (byteToHex b).length = 2 ∧ ∀ ch ∈ byteToHex b, ch ∈ hexChars := by
  decide

/-- Length of a flattened map whose pieces all have length `n`. -/
theorem flatten_map_length_uniform {α : Type} (f : α → List Char) (n : Nat)
    (l : List α) (h : ∀ x ∈ l, (f x).length = n) :
    ((l.map f).flatten).length = n * l.length := by
  induction l with
  | nil => simp
  | cons x t ih =>
    simp only [List.map_cons, List.flatten_cons, List.length_append,
      List.length_cons]
    rw [h x (List.mem_cons_self x t), ih (fun y hy => h y (List.mem_cons_of_mem x hy))]
    ring

/-- C10: `computeFingerprint` is total and only conditionally well-formed —
when `crypto.subtle` is available and the SHA-256 digest succeeds (returning
32 bytes), the result is the first 8 digest bytes rendered as exactly 16
lowercase hex characters, a pure function of the input; when `crypto.subtle`
is unavailable or the digest throws it returns the empty string instead of
raising. -/
theorem c10_fingerprint_shape (digest : List Nat → Option (List Nat))
    (utf8Encode : String → List Nat) (pk : String) (h : List Nat)
    (hd : digest (utf8Encode pk) = some h) (hlen : h.length = 32)
    (hbytes : ∀ b ∈ h, b < 256) :
    computeFingerprint true digest utf8Encode pk =
      String.mk (((h.take 8).map byteToHex).flatten) ∧
    (computeFingerprint true digest utf8Encode pk).length = 16 ∧
    (∀ ch ∈ (computeFingerprint true digest utf8Encode pk).data, ch ∈ hexChars) ∧
    computeFingerprint false digest utf8Encode pk = "" ∧
    (∀ pk2, digest (utf8Encode pk2) = none →
      computeFingerprint true digest utf8Encode pk2 = "") := by
  have heq : computeFingerprint true digest utf8Encode pk =
      String.mk (((h.take 8).map byteToHex).flatten) := by
    unfold computeFingerprint
    simp [hd]
  have htake : (h.take 8).length = 8 := by
    rw [List.length_take, hlen]
    omega
  have hmemtake : ∀ b ∈ h.take 8, b < 256 :=
    fun b hb => hbytes b (List.take_subset 8 h hb)
  refine ⟨heq, ?_, ?_, ?_, ?_⟩
  · rw [heq]
    show (((h.take 8).map byteToHex).flatten).length = 16
    rw [flatten_map_length_uniform byteToHex 2 _
      (fun x hx => (byteToHex_spec x (hmemtake x hx)).1), htake]
  · rw [heq]
    intro ch hch
    have hch2 : ch ∈ ((h.take 8).map byteToHex).flatten := hch
    obtain ⟨piece, hpiece, hchp⟩ := List.mem_flatten.mp hch2
    obtain ⟨b, hb, rfl⟩ := List.mem_map.mp hpiece
    exact (byteToHex_spec b (hmemtake b hb)).2 ch hchp
  · unfold computeFingerprint
    rfl
  · intro pk2 hnone
    unfold computeFingerprint
    simp [hnone]

/-- Witness for C10: a digest oracle returning the 32 bytes `0..31` yields a
16-character fingerprint. -/
theorem c10_fingerprint_shape_witness :
    (computeFingerprint true (fun _ => some (List.range 32))
      (fun _ => []) "pk").length = 16 :=
  (c10_fingerprint_shape (fun _ => some (List.range 32)) (fun _ => []) "pk"
    (List.range 32) rfl (by simp) (by decide)).2.1

/-- Helper `removeFirst` only ever drops elements. -/
theorem removeFirst_subset {α : Type} (p : α → Bool) (l : List α) :
    ∀ x ∈ removeFirst p l, x ∈ l := by
  induction l with
  | nil => intro x hx; cases hx
  | cons y t ih =>
    intro x hx
    unfold removeFirst at hx
    by_cases hp : p y = true
    · rw [if_pos hp] at hx
      exact List.mem_cons_of_mem y hx
    · rw [if_neg hp] at hx
      rcases List.mem_cons.mp hx with rfl | hx
      · exact List.mem_cons_self x t
      · exact List.mem_cons_of_mem y (ih x hx)

/-- An element the predicate rejects survives `removeFirst`. -/
theorem mem_removeFirst {α : Type} (p : α → Bool) (l : List α) (x : α)
    (hx : x ∈ l) (hpx : p x = false) : x ∈ removeFirst p l := by
  induction l with
  | nil => cases hx
  | cons y t ih =>
    unfold removeFirst
    by_cases hp : p y = true
    · rw [if_pos hp]
      rcases List.mem_cons.mp hx with rfl | hmem
      · rw [hpx] at hp; cases hp
      · exact hmem
    · rw [if_neg hp]
      rcases List.mem_cons.mp hx with rfl | hmem
      · exact List.mem_cons_self x _
      · exact List.mem_cons_of_mem y (ih hmem)

/-- Every element of `assocSet l k v` is an old element or the new
binding. -/
theorem mem_assocSet_cases {α : Type} (l : List (String × α)) (k : String)
    (v : α) : ∀ y ∈ assocSet l k v, y ∈ l ∨ y = (k, v) := by
  induction l with
  | nil =>
    intro y hy
    unfold assocSet at hy
    rcases List.mem_cons.mp hy with rfl | h
    · exact Or.inr rfl
    · cases h
  | cons kv t ih =>
    intro y hy
    unfold assocSet at hy
    by_cases hk : kv.1 = k
    · rw [if_pos hk] at hy
      rcases List.mem_cons.mp hy with rfl | h
      · exact Or.inr rfl
      · exact Or.inl (List.mem_cons_of_mem kv h)
    · rw [if_neg hk] at hy
      rcases List.mem_cons.mp hy with rfl | h
      · exact Or.inl (List.mem_cons_self _ t)
      · rcases ih y h with h1 | h2
        · exact Or.inl (List.mem_cons_of_mem kv h1)
        · exact Or.inr h2

/-- A binding under a different key survives `assocSet`. -/
theorem mem_assocSet_of_ne {α : Type} (l : List (String × α)) (k : String)
    (v : α) (x : String × α) (hx : x ∈ l) (hne : x.1 ≠ k) :
    x ∈ assocSet l k v := by
  induction l with
  | nil => cases hx
  | cons kv t ih =>
    unfold assocSet
    by_cases hk : kv.1 = k
    · rw [if_pos hk]
      rcases List.mem_cons.mp hx with rfl | hmem
      · exact absurd hk hne
      · exact List.mem_cons_of_mem _ hmem
    · rw [if_neg hk]
      rcases List.mem_cons.mp hx with rfl | hmem
      · exact List.mem_cons_self x _
      · exact List.mem_cons_of_mem kv (ih hmem)

/-- Lookup via membership when the key's binding is unique. -/
theorem assocGet_of_mem_unique {α : Type} (l : List (String × α)) (k : String)
    (v : α) (hmem : (k, v) ∈ l)
    (huniq : ∀ kv ∈ l, kv.1 = k → kv = (k, v)) : assocGet l k = some v := by
  induction l with
  | nil => cases hmem
  | cons kv t ih =>
    unfold assocGet
    by_cases hk : kv.1 = k
    · have := huniq kv (List.mem_cons_self kv t) hk
      rw [this]
      simp [List.find?]
    · have hmem2 : (k, v) ∈ t := by
        rcases List.mem_cons.mp hmem with rfl | h
        · exact absurd rfl hk
        · exact h
      have ht := ih hmem2 (fun kv2 hkv2 => huniq kv2 (List.mem_cons_of_mem kv hkv2))
      unfold assocGet at ht
      simpa [List.find?, show (kv.1 == k) = false from by
        exact beq_eq_false_iff_ne.mpr hk] using ht

/-- The fold of `nsMergeStep` over broadcast peers preserves the invariant:
the self-binding stays present, and every binding is either the self-binding
or a freshly rebuilt entry of some broadcast peer. -/
theorem nsMerge_foldl_inv (now : Nat)
    (knownPIDFor : BroadcastPeer → Option String) (myDiscID : String)
    (me : PeerInfo) (hme : me.isMe = true) (peersAll : List BroadcastPeer) :
    ∀ (ps : List BroadcastPeer) (acc : List (String × PeerInfo)),
      (∀ q ∈ ps, q ∈ peersAll) →
      (myDiscID, me) ∈ acc →
      (∀ kv ∈ acc, kv = (myDiscID, me) ∨
        (kv.2.isMe = false ∧ ∃ p ∈ peersAll, p.discoveryID ≠ myDiscID ∧
          kv = (p.discoveryID, mkRegistryEntry now (knownPIDFor p) p))) →
      ((myDiscID, me) ∈ ps.foldl (nsMergeStep now knownPIDFor myDiscID) acc ∧
        ∀ kv ∈ ps.foldl (nsMergeStep now knownPIDFor myDiscID) acc,
          kv = (myDiscID, me) ∨
          (kv.2.isMe = false ∧ ∃ p ∈ peersAll, p.discoveryID ≠ myDiscID ∧
            kv = (p.discoveryID, mkRegistryEntry now (knownPIDFor p) p))) := by
  intro ps
  induction ps with
  | nil => intro acc _ hmem hinv; exact ⟨hmem, hinv⟩
  | cons p pt ih =>
    intro acc hsub hmem hinv
    simp only [List.foldl_cons]
    have hsub2 : ∀ q ∈ pt, q ∈ peersAll :=
      fun q hq => hsub q (List.mem_cons_of_mem p hq)
    by_cases hpid : p.discoveryID = myDiscID
    · have hstep : nsMergeStep now knownPIDFor myDiscID acc p = acc := by
        unfold nsMergeStep
        rw [if_pos hpid]
      rw [hstep]
      exact ih _ hsub2 hmem hinv
    · rcases hpk : p.publicKey with _ | pk
      · have hstep : nsMergeStep now knownPIDFor myDiscID acc p =
            assocSet acc p.discoveryID
              (mkRegistryEntry now (knownPIDFor p) p) := by
          unfold nsMergeStep
          rw [if_neg hpid, hpk]
        rw [hstep]
        apply ih _ hsub2
        · exact mem_assocSet_of_ne _ _ _ _ hmem (fun h => hpid h.symm)
        · intro kv hkv
          rcases mem_assocSet_cases _ _ _ kv hkv with hold | hnew
          · exact hinv kv hold
          · right
            subst hnew
            exact ⟨rfl, p, hsub p (List.mem_cons_self p pt), hpid, rfl⟩
      · have hstep : nsMergeStep now knownPIDFor myDiscID acc p =
            assocSet
              (removeFirst
                (fun kv : String × PeerInfo => kv.1 != p.discoveryID &&
                  !kv.2.isMe && kv.2.publicKey == some pk) acc)
              p.discoveryID (mkRegistryEntry now (knownPIDFor p) p) := by
          unfold nsMergeStep
          rw [if_neg hpid, hpk]
        rw [hstep]
        apply ih _ hsub2
        · refine mem_assocSet_of_ne _ _ _ _
            (mem_removeFirst _ acc _ hmem ?_) (fun h => hpid h.symm)
          simp [hme]
        · intro kv hkv
          rcases mem_assocSet_cases _ _ _ kv hkv with hold | hnew
          · exact hinv kv (removeFirst_subset _ acc kv hold)
          · right
            subst hnew
            exact ⟨rfl, p, hsub p (List.mem_cons_self p pt), hpid, rfl⟩

/-- C6: processing a `'registry'` broadcast fully replaces the member's
local registry with entries rebuilt from the broadcast contents, with the
single exception of the member's own self-entry (the entry marked `isMe`),
which keeps its key and its value unchanged; every other binding of the
merged registry is a fresh entry built from some broadcast peer, so no other
entry of the previous local registry survives. -/
theorem c6_registry_replacement (now : Nat)
    (knownPIDFor : BroadcastPeer → Option String) (myDiscID : String)
    (registry : List (String × PeerInfo)) (peers : List BroadcastPeer)
    (me : PeerInfo)
    (hfind : (registry.map Prod.snd).find? (fun r => r.isMe) = some me)
    (hid : me.discoveryID = myDiscID) :
    assocGet (nsMergeRegistry now knownPIDFor myDiscID registry peers)
      myDiscID = some me ∧
    ∀ kv ∈ nsMergeRegistry now knownPIDFor myDiscID registry peers,
      kv = (myDiscID, me) ∨
      (kv.2.isMe = false ∧ ∃ p ∈ peers, p.discoveryID ≠ myDiscID ∧
        kv = (p.discoveryID, mkRegistryEntry now (knownPIDFor p) p)) := by
  have hme : me.isMe = true := by
    have := List.find?_some hfind
    simpa using this
  have hinit : nsMergeRegistry now knownPIDFor myDiscID registry peers =
      peers.foldl (nsMergeStep now knownPIDFor myDiscID) [(myDiscID, me)] := by
    unfold nsMergeRegistry
    rw [hfind]
    dsimp only
    rw [hid]
  obtain ⟨hmem, hinv⟩ := nsMerge_foldl_inv now knownPIDFor myDiscID me hme
    peers peers [(myDiscID, me)] (fun q hq => hq)
    (List.mem_singleton.mpr rfl)
    (by intro kv hkv; left; simpa using hkv)
  rw [hinit]
  refine ⟨?_, hinv⟩
  apply assocGet_of_mem_unique _ _ _ hmem
  intro kv hkv hk1
  rcases hinv kv hkv with h | ⟨_, p, _, hpne, hkveq⟩
  · exact h
  · exfalso
    rw [hkveq] at hk1
    exact hpne hk1

/-- Witness for C6: on a concrete registry holding the self-entry and a
stale peer, a broadcast with one peer preserves the self-entry under its
key. -/
theorem c6_registry_replacement_witness :
    assocGet (nsMergeRegistry 99 (fun _ => none) "my" regA [bpA]) "my" =
      some meA :=
  (c6_registry_replacement 99 (fun _ => none) "my" regA [bpA] meA rfl rfl).1

/-- Deleting a key removes its binding. -/
theorem assocGet_assocDelete_self {α : Type} (l : List (String × α))
    (k : String) : assocGet (assocDelete l k) k = none := by
  unfold assocGet
  rcases hf : (assocDelete l k).find? (fun kv => kv.1 == k) with _ | kv
  · rw [hf]
  · exfalso
    have hmem := List.mem_of_find?_eq_some hf
    have hpred := List.find?_some hf
    unfold assocDelete at hmem
    have hne := List.of_mem_filter hmem
    simp at hne hpred
    exact hne hpred

/-- After a migration the old key holds no contact record. -/
theorem migrateContactCore_lookup_old (oldKey newKey : String) (st : IRState)
    (existing : Contact) :
    assocGet (migrateContactCore oldKey newKey st existing).contacts oldKey =
      none := by
  unfold migrateContactCore
  dsimp only
  exact assocGet_assocDelete_self _ oldKey

/-- The second identical `migrateContact` call is a no-op: the first call
deleted the `oldKey` record, so the second returns the state unchanged. -/
theorem migrateContact_second_noop (oldKey newKey : String) (st : IRState) :
    migrateContact oldKey newKey (migrateContact oldKey newKey st) =
      migrateContact oldKey newKey st := by
  by_cases h : oldKey = newKey
  · unfold migrateContact
    rw [if_pos h, if_pos h]
  · rcases hold : assocGet st.contacts oldKey with _ | existing
    · have h1 : migrateContact oldKey newKey st = st := by
        unfold migrateContact
        rw [if_neg h, hold]
      rw [h1, h1]
    · have h1 : migrateContact oldKey newKey st =
          migrateContactCore oldKey newKey st existing := by
        unfold migrateContact
        rw [if_neg h, hold]
      rw [h1]
      unfold migrateContact
      rw [if_neg h, migrateContactCore_lookup_old]

/-- Membership in the JS-set deduplication. -/
theorem mem_dedupGo (l : List String) :
    ∀ (seen : List String) (a : String),
      a ∈ dedupGo seen l ↔ a ∈ l ∧ a ∉ seen := by
  induction l with
  | nil => intro seen a; simp [dedupGo]
  | cons x t ih =>
    intro seen a
    unfold dedupGo
    by_cases hx : x ∈ seen
    · rw [if_pos hx, ih seen a]
      constructor
      · rintro ⟨hat, hns⟩
        exact ⟨List.mem_cons_of_mem x hat, hns⟩
      · rintro ⟨hax, hns⟩
        rcases List.mem_cons.mp hax with rfl | hat
        · exact absurd hx hns
        · exact ⟨hat, hns⟩
    · rw [if_neg hx]
      constructor
      · intro hmem
        rcases List.mem_cons.mp hmem with rfl | hmem2
        · exact ⟨List.mem_cons_self a t, hx⟩
        · have h2 := (ih (x :: seen) a).mp hmem2
          exact ⟨List.mem_cons_of_mem x h2.1,
            fun hs => h2.2 (List.mem_cons_of_mem x hs)⟩
      · rintro ⟨hax, hns⟩
        rcases List.mem_cons.mp hax with rfl | hat
        · exact List.mem_cons_self a _
        · by_cases hax2 : a = x
          · subst hax2
            exact List.mem_cons_self a _
          · refine List.mem_cons_of_mem x ((ih (x :: seen) a).mpr ⟨hat, ?_⟩)
            intro hmem
            rcases List.mem_cons.mp hmem with h1 | h1
            · exact hax2 h1
            · exact hns h1

/-- Deduplication of a list entirely covered by `seen` is empty. -/
theorem dedupGo_sub_nil (s : List String) :
    ∀ seen, (∀ a ∈ s, a ∈ seen) → dedupGo seen s = [] := by
  induction s with
  | nil => intro seen _; rfl
  | cons x t ih =>
    intro seen hsub
    unfold dedupGo
    rw [if_pos (hsub x (List.mem_cons_self x t))]
    exact ih seen (fun a ha => hsub a (List.mem_cons_of_mem x ha))

/-- The deduplicated output is duplicate-free and disjoint from `seen`. -/
theorem nodup_dedupGo (l : List String) :
    ∀ seen, (dedupGo seen l).Nodup ∧ ∀ a ∈ dedupGo seen l, a ∉ seen := by
  induction l with
  | nil =>
    intro seen
    exact ⟨List.nodup_nil, by intro a ha; cases ha⟩
  | cons x t ih =>
    intro seen
    unfold dedupGo
    by_cases hx : x ∈ seen
    · rw [if_pos hx]
      exact ih seen
    · rw [if_neg hx]
      obtain ⟨hnd, hns⟩ := ih (x :: seen)
      constructor
      · rw [List.nodup_cons]
        exact ⟨fun hmem => hns x hmem (List.mem_cons_self x seen), hnd⟩
      · intro a ha
        rcases List.mem_cons.mp ha with rfl | h2
        · exact hx
        · exact fun hs => hns a h2 (List.mem_cons_of_mem x hs)

/-- Appending elements that are already present does not change the
deduplication. -/
theorem dedupGo_append_absorb (d : List String) :
    ∀ (seen s : List String), d.Nodup → (∀ a ∈ d, a ∉ seen) →
      (∀ a ∈ s, a ∈ d ∨ a ∈ seen) →
      dedupGo seen (d ++ s) = dedupGo seen d := by
  induction d with
  | nil =>
    intro seen s _ _ hsub
    simp only [List.nil_append]
    exact dedupGo_sub_nil s seen
      (fun a ha => (hsub a ha).resolve_left (fun h => absurd h (List.not_mem_nil a)))
  | cons x t ih =>
    intro seen s hnd hdseen hsub
    simp only [List.cons_append]
    unfold dedupGo
    have hxs : x ∉ seen := hdseen x (List.mem_cons_self x t)
    rw [if_neg hxs, if_neg hxs]
    congr 1
    apply ih (x :: seen) s (List.nodup_cons.mp hnd).2
    · intro a ha hmem
      rcases List.mem_cons.mp hmem with rfl | h2
      · exact (List.nodup_cons.mp hnd).1 ha
      · exact hdseen a (List.mem_cons_of_mem x ha) h2
    · intro a ha
      rcases hsub a ha with h | h
      · rcases List.mem_cons.mp h with rfl | h2
        · exact Or.inr (List.mem_cons_self a seen)
        · exact Or.inl h2
      · exact Or.inr (List.mem_cons_of_mem x h)

/-- Deduplication is the identity on duplicate-free input disjoint from
`seen`. -/
theorem dedupGo_eq_self (d : List String) :
    ∀ seen, d.Nodup → (∀ a ∈ d, a ∉ seen) → dedupGo seen d = d := by
  induction d with
  | nil => intro seen _ _; rfl
  | cons x t ih =>
    intro seen hnd hsub
    unfold dedupGo
    rw [if_neg (hsub x (List.mem_cons_self x t))]
    congr 1
    apply ih (x :: seen) (List.nodup_cons.mp hnd).2
    intro a ha hmem
    rcases List.mem_cons.mp hmem with rfl | h2
    · exact (List.nodup_cons.mp hnd).1 ha
    · exact hsub a (List.mem_cons_of_mem x ha) h2

/-- The known-addresses merge is idempotent. -/
theorem mergeKnownPIDs_idem (t s : List String) :
    mergeKnownPIDs (mergeKnownPIDs t s) s = mergeKnownPIDs t s := by
  unfold mergeKnownPIDs dedupKeepFirst
  have hnd := (nodup_dedupGo (t ++ s) []).1
  have habs : dedupGo [] (dedupGo [] (t ++ s) ++ s) =
      dedupGo [] (dedupGo [] (t ++ s)) := by
    apply dedupGo_append_absorb _ _ _ hnd (by intro a _ h; cases h)
    intro a ha
    left
    rw [mem_dedupGo (t ++ s) [] a]
    exact ⟨List.mem_append_right t ha, fun h => absurd h (List.not_mem_nil a)⟩
  rw [habs]
  exact dedupGo_eq_self _ [] hnd (by intro a _ h; cases h)

/-- Membership in the timestamp insertion. -/
theorem mem_insertTs (x : ChatMessage) (l : List ChatMessage)
    (a : ChatMessage) : a ∈ insertTs x l ↔ a = x ∨ a ∈ l := by
  induction l with
  | nil => simp [insertTs]
  | cons y t ih =>
    unfold insertTs
    by_cases hle : x.ts ≤ y.ts
    · rw [if_pos hle]
      simp
    · rw [if_neg hle]
      simp only [List.mem_cons, ih]
      tauto

/-- The timestamp sort is a permutation membership-wise. -/
theorem mem_sortTs (l : List ChatMessage) (a : ChatMessage) :
    a ∈ sortTs l ↔ a ∈ l := by
  induction l with
  | nil => simp [sortTs]
  | cons x t ih =>
    unfold sortTs
    rw [mem_insertTs]
    simp [ih]

/-- The head of an insertion is the inserted element or the old head. -/
theorem insertTs_head_cases (x : ChatMessage) (l : List ChatMessage) :
    (insertTs x l).head? = some x ∨ (insertTs x l).head? = l.head? := by
  rcases l with _ | ⟨y, t⟩
  · left
    rfl
  · unfold insertTs
    by_cases hle : x.ts ≤ y.ts
    · rw [if_pos hle]
      left
      rfl
    · rw [if_neg hle]
      right
      rfl

/-- Insertion preserves sortedness by timestamp. -/
theorem chain'_insertTs (x : ChatMessage) (l : List ChatMessage)
    (h : List.Chain' (fun a b => a.ts ≤ b.ts) l) :
    List.Chain' (fun a b => a.ts ≤ b.ts) (insertTs x l) := by
  induction l with
  | nil => simp [insertTs]
  | cons y t ih =>
    unfold insertTs
    by_cases hle : x.ts ≤ y.ts
    · rw [if_pos hle]
      exact List.chain'_cons.mpr ⟨hle, h⟩
    · rw [if_neg hle]
      have h2 := List.chain'_cons'.mp h
      apply List.chain'_cons'.mpr
      refine ⟨?_, ih h2.2⟩
      intro b hb
      rcases insertTs_head_cases x t with hh | hh
      · rw [hh] at hb
        have hb2 : b = x := by simpa using hb.symm
        subst hb2
        omega
      · rw [hh] at hb
        exact h2.1 b hb

/-- The sort's output is sorted by timestamp. -/
theorem chain'_sortTs (l : List ChatMessage) :
    List.Chain' (fun a b => a.ts ≤ b.ts) (sortTs l) := by
  induction l with
  | nil => simp [sortTs]
  | cons x t ih => exact chain'_insertTs x (sortTs t) ih

/-- A stable sort leaves an already-sorted list unchanged. -/
theorem sortTs_eq_self (l : List ChatMessage)
    (h : List.Chain' (fun a b => a.ts ≤ b.ts) l) : sortTs l = l := by
  induction l with
  | nil => rfl
  | cons x t ih =>
    unfold sortTs
    rw [ih (List.chain'_cons'.mp h).2]
    rcases t with _ | ⟨y, t2⟩
    · rfl
    · unfold insertTs
      rw [if_pos (List.chain'_cons.mp h).1]

/-- The chat-history merge is idempotent. -/
theorem mergeChats_idem (t s : List ChatMessage) :
    mergeChats (mergeChats t s) s = mergeChats t s := by
  have hfilter : s.filter
      (fun m => !((mergeChats t s).any (fun m2 => m2.id == m.id))) = [] := by
    rw [List.filter_eq_nil_iff]
    intro m hm
    suffices hany : (mergeChats t s).any (fun m2 => m2.id == m.id) = true by
      simp [hany]
    rw [List.any_eq_true]
    by_cases ht : t.any (fun m2 => m2.id == m.id) = true
    · obtain ⟨w, hw, hwid⟩ := List.any_eq_true.mp ht
      exact ⟨w, (mem_sortTs _ w).mpr (List.mem_append_left _ hw), hwid⟩
    · have hmf : m ∈ t ++ s.filter
          (fun m2 => !(t.any (fun m3 => m3.id == m2.id))) := by
        apply List.mem_append_right
        rw [List.mem_filter]
        exact ⟨hm, by simp [ht]⟩
      exact ⟨m, (mem_sortTs _ m).mpr hmf, by simp⟩
  show sortTs ((mergeChats t s) ++ s.filter
    (fun m => !((mergeChats t s).any (fun m2 => m2.id == m.id)))) = mergeChats t s
  rw [hfilter, List.append_nil]
  exact sortTs_eq_self _ (chain'_sortTs _)

/-- C7: contact migration is idempotent — calling `migrateContact A B` twice
leaves the contact map, chat histories, shared-key cache and address indexes
exactly as after the first call (the second call is a no-op), and the merge
it performs is itself idempotent: re-merging the same known-address list
changes nothing, and re-merging the same chat history (union deduplicated by
message id, sorted by timestamp) changes nothing. -/
theorem c7_migration_idempotent :
    (∀ (oldKey newKey : String) (st : IRState),
      migrateContact oldKey newKey (migrateContact oldKey newKey st) =
        migrateContact oldKey newKey st) ∧
    (∀ t s : List String,
      mergeKnownPIDs (mergeKnownPIDs t s) s = mergeKnownPIDs t s) ∧
    (∀ t s : List ChatMessage,
      mergeChats (mergeChats t s) s = mergeChats t s) :=
  ⟨migrateContact_second_noop, mergeKnownPIDs_idem, mergeChats_idem⟩

end PeerNS
